import Mathlib

/-!
Verification model of `rewrite_lol` from `src/src/utils/html.rs` (docs.rs).

The bespoke logic of the repository — the three element handlers
(`head_handler`, `body_handler`, `first_stylesheet_handler`), the three
selectors, the template-render unwraps, and the memory-limited single-pass
rewrite — is translated from the source.  The streaming rewrite engine
itself (the `lol_html` crate) and the template store
(`crate::web::page::TemplateData`) are not part of `src/`; their behaviour
is modelled from the specification (spec.md §4.5 engine contract, §4.3 net
effect, §9 template store).

The input document is represented as a stream of markup tokens (start tag
with attribute list, end tag, text); the rewriter additionally emits `raw`
tokens holding the verbatim fragment strings it injects.  `serialize`
recovers the byte sequence of a token stream.
-/

/-- Markup token of the streamed document.  `raw` holds verbatim HTML that a
handler injected (fragments and the synthesized body tags); input documents
consist of `startTag`/`endTag`/`text` tokens only. -/
inductive Tok where
  | startTag : String → List (String × String) → Tok
  | endTag : String → Tok
  | text : String → Tok
  | raw : String → Tok
deriving DecidableEq, Repr

/-- Lookup of the first attribute with a given name (the engine's
attribute-get operation on a start tag). -/
def getAttr : List (String × String) → String → Option String
  | [], _ => none
  | (k, v) :: rest, key => if k = key then some v else getAttr rest key

/-- Whether the character list `pat` is an initial segment of `l`. -/
def charListLeads : List Char → List Char → Bool
  | [], _ => true
  | _ :: _, [] => false
  | p :: ps, c :: cs => p == c && charListLeads ps cs

/-- Whether the character list `pat` occurs contiguously inside `l`. -/
def charListHasSub (pat : List Char) : List Char → Bool
  | [] => charListLeads pat []
  | c :: cs => charListLeads pat (c :: cs) || charListHasSub pat cs

/-- Whether the string `pat` occurs as a contiguous substring of `h`. -/
def containsSubstr (h pat : String) : Bool :=
  charListHasSub pat.data h.data

/-- Translated from `first_stylesheet_selector` in src/src/utils/html.rs
(line 78): the selector string is `link[type='text/css'][href*='rustdoc']`.
CSS attribute-selector semantics (exact value match for `=`, substring
match for `*=`) are those of the external engine, modelled from the spec
(§4.1 item 3). -/
def matchesFirstStylesheetSelector (n : String) (attrs : List (String × String)) : Bool :=
  decide (n = "link")
    && (match getAttr attrs "type" with
        | some t => decide (t = "text/css")
        | none => false)
    && (match getAttr attrs "href" with
        | some h => containsSubstr h "rustdoc"
        | none => false)

/-- The four pre-rendered template fragments consumed by the handlers,
named after the local variables of `rewrite_lol`. -/
structure Fragments where
  tera_head : String
  tera_vendored_css : String
  tera_body : String
  tera_rustdoc_header : String
deriving DecidableEq, Repr

/-- Translated from `body_handler` in src/src/utils/html.rs (lines 42–49):
the new class value is the existing `class` attribute with
`" container-rustdoc"` pushed onto it, or `"container-rustdoc"` when the
element has no `class` attribute. -/
def bodyClass (attrs : List (String × String)) : String :=
  match getAttr attrs "class" with
  | some classes => classes ++ " container-rustdoc"
  | none => "container-rustdoc"

/-- Attribute list of the rewritten body element.  The handler's operations
(set `class` to `bodyClass`, set `id` to `"rustdoc_body_wrapper"`, set
`tabindex` to `"-1"`) are translated from `body_handler` (lines 50–52).
Modelled from the spec: the engine's serialization of the rewritten start
tag emits the handler-set attributes in the order `id`, `class`, `tabindex`
(spec.md §4.3 net effect and §8 example) and preserves any other original
attribute after them. -/
def rewriteBodyAttrs (attrs : List (String × String)) : List (String × String) :=
  ("id", "rustdoc_body_wrapper")
    :: ("class", bodyClass attrs)
    :: ("tabindex", "-1")
    :: attrs.filter (fun kv => !(decide (kv.1 = "class") || decide (kv.1 = "id") || decide (kv.1 = "tabindex")))

/-- Per-pass state of the streaming engine: whether an open `head` element
is awaiting its appended fragment at its end tag, and whether a matched
`body` element is awaiting its end-tag rename and `after` content. -/
structure RwState where
  headPending : Bool
  bodyPending : Bool
deriving DecidableEq, Repr

/-- One step of the streaming engine on a single token.  Modelled from the
spec (§4.5): the engine dispatches a start tag to the handler of the first
selector it matches and applies the requested mutations inline; consecutive
`before` insertions accumulate in call order (spec §4.3 net effect and §8
example place the synthesized `<body>` first, then the header fragment);
`append` content attaches immediately before the element's end tag and
`after` content immediately after it.  The three handler bodies are
translated from `head_handler`, `body_handler` and
`first_stylesheet_handler` in src/src/utils/html.rs. -/
def stepTok (fr : Fragments) (s : RwState) : Tok → RwState × List Tok
  | Tok.startTag n a =>
    if n = "head" then
      ({ s with headPending := true }, [Tok.startTag n a])
    else if n = "body" then
      ({ s with bodyPending := true },
        [Tok.raw "<body>", Tok.raw fr.tera_rustdoc_header,
         Tok.startTag "div" (rewriteBodyAttrs a), Tok.raw fr.tera_body])
    else if matchesFirstStylesheetSelector n a then
      (s, [Tok.raw fr.tera_vendored_css, Tok.startTag n a])
    else
      (s, [Tok.startTag n a])
  | Tok.endTag n =>
    if n = "head" then
      if s.headPending then
        ({ s with headPending := false }, [Tok.raw fr.tera_head, Tok.endTag n])
      else (s, [Tok.endTag n])
    else if n = "body" then
      if s.bodyPending then
        ({ s with bodyPending := false }, [Tok.endTag "div", Tok.raw "</body>"])
      else (s, [Tok.endTag n])
    else (s, [Tok.endTag n])
  | Tok.text t => (s, [Tok.text t])
  | Tok.raw r => (s, [Tok.raw r])

/-- The full streaming pass without the memory ceiling: each input token is
expanded by `stepTok` and the pieces are concatenated in stream order
(spec §4.5 output contract). -/
def goPure (fr : Fragments) (s : RwState) : List Tok → List Tok
  | [] => []
  | t :: ts => (stepTok fr s t).2 ++ goPure fr (stepTok fr s t).1 ts

/-- Serialization of one token back to bytes: attributes are rendered as
space-separated `name="value"` pairs; `raw` content is emitted verbatim. -/
def serializeAttrs : List (String × String) → String
  | [] => ""
  | (k, v) :: rest => " " ++ k ++ "=\"" ++ v ++ "\"" ++ serializeAttrs rest

/-- Byte rendering of a single token. -/
def serializeTok : Tok → String
  | Tok.startTag n a => "<" ++ n ++ serializeAttrs a ++ ">"
  | Tok.endTag n => "</" ++ n ++ ">"
  | Tok.text t => t
  | Tok.raw r => r

/-- Byte rendering of a token stream (concatenation of its tokens, in
order). -/
def serialize : List Tok → String
  | [] => ""
  | t :: ts => serializeTok t ++ serialize ts

/-- Modelled from the spec: the working memory the engine must buffer for a
token — tags are buffered whole (name plus attributes) before they can be
matched and rewritten, while character data is streamed through
(spec §3 memory budget: "buffering of pending tag data, attribute
values"). -/
def tokMemory : Tok → Nat
  | Tok.startTag n a => (serializeTok (Tok.startTag n a)).length
  | Tok.endTag n => (serializeTok (Tok.endTag n)).length
  | Tok.text _ => 0
  | Tok.raw _ => 0

/-- Error taxonomy of the engine, from `lol_html::errors::RewritingError`
as described by the spec (§7). -/
inductive RewritingError where
  | memoryLimitExceeded
  | attributeError
  | malformedMarkup
deriving DecidableEq, Repr

/-- The memory-limited streaming pass: before a token is processed its
buffered size is charged against the ceiling; exceeding the ceiling aborts
the pass immediately with `memoryLimitExceeded` (spec §4.5 memory
contract), otherwise the token is expanded by `stepTok`. -/
def goMem (fr : Fragments) (lim : Nat) (s : RwState) : List Tok → Except RewritingError (List Tok)
  | [] => Except.ok []
  | t :: ts =>
    if lim < tokMemory t then Except.error RewritingError.memoryLimitExceeded
    else
      match goMem fr lim (stepTok fr s t).1 ts with
      | Except.ok out => Except.ok ((stepTok fr s t).2 ++ out)
      | Except.error e => Except.error e

/-- Modelled from the spec: an opaque key-value rendering context
(`tera::Context` is external to src/). -/
def Context := List (String × String)

/-- Modelled from the spec: the external, hot-reloadable template store
(`crate::web::page::TemplateData` is not under src/): rendering a named
template against a context yields an HTML string or fails
(spec §9: "render(template_name, context) -> HTML string, or
TemplateRenderError"); `none` is the failure case. -/
structure TemplateData where
  render : String → Context → Option String

/-- Result of a call to `rewrite_lol`: a transformed token stream, a typed
rewriting error, or a panic (the source unwraps the template-render
results, so a failed render aborts by panicking rather than returning an
error value). -/
inductive Outcome where
  | ok : List Tok → Outcome
  | err : RewritingError → Outcome
  | panicked : Outcome
deriving DecidableEq, Repr

/-- Whether an outcome is a typed failure result (an `Err` value of the
function's error type). -/
def isTypedFailure : Outcome → Bool
  | Outcome.err _ => true
  | _ => false

/-- Translated from `rewrite_lol` in src/src/utils/html.rs: the four
templates `rustdoc/head.html`, `rustdoc/vendored.html`, `rustdoc/body.html`
and `rustdoc/header.html` are rendered first and unwrapped in that order
(a failed render panics); the streaming pass then runs over the input with
the supplied memory ceiling, starting with no pending element state, and
the accumulated buffer is returned on success. -/
def rewrite_lol (html : List Tok) (max_allowed_memory_usage : Nat) (ctx : Context)
    (templates : TemplateData) : Outcome :=
  match templates.render "rustdoc/head.html" ctx with
  | none => Outcome.panicked
  | some tera_head =>
    match templates.render "rustdoc/vendored.html" ctx with
    | none => Outcome.panicked
    | some tera_vendored_css =>
      match templates.render "rustdoc/body.html" ctx with
      | none => Outcome.panicked
      | some tera_body =>
        match templates.render "rustdoc/header.html" ctx with
        | none => Outcome.panicked
        | some tera_rustdoc_header =>
          match goMem ⟨tera_head, tera_vendored_css, tera_body, tera_rustdoc_header⟩
              max_allowed_memory_usage ⟨false, false⟩ html with
          | Except.ok out => Outcome.ok out
          | Except.error e => Outcome.err e

/-- Template store used by the concrete examples: it renders the four
fragments of the spec's §8 example. -/
def exTd : TemplateData :=
  ⟨fun name _ =>
    if name = "rustdoc/head.html" then some "<style>h</style>"
    else if name = "rustdoc/vendored.html" then some "<link rel=vendor>"
    else if name = "rustdoc/body.html" then some "<nav>top</nav>"
    else if name = "rustdoc/header.html" then some "<header>hdr</header>"
    else none⟩

/-- Empty rendering context used by the concrete examples. -/
def exCtx : Context := []

/-- Token stream of the spec's §8 example input document
`<html><head></head><body class="foo">X</body></html>`. -/
def exHtml : List Tok :=
  [Tok.startTag "html" [], Tok.startTag "head" [], Tok.endTag "head",
   Tok.startTag "body" [("class", "foo")], Tok.text "X",
   Tok.endTag "body", Tok.endTag "html"]

example : serialize exHtml = "<html><head></head><body class=\"foo\">X</body></html>" := by decide

example :
    rewrite_lol exHtml 4096 exCtx exTd =
      Outcome.ok
        [Tok.startTag "html" [], Tok.startTag "head" [],
         Tok.raw "<style>h</style>", Tok.endTag "head",
         Tok.raw "<body>", Tok.raw "<header>hdr</header>",
         Tok.startTag "div"
           [("id", "rustdoc_body_wrapper"), ("class", "foo container-rustdoc"),
            ("tabindex", "-1")],
         Tok.raw "<nav>top</nav>", Tok.text "X",
         Tok.endTag "div", Tok.raw "</body>", Tok.endTag "html"] := by decide

/-- Output token stream that `rewrite_lol` produces on the §8 example input
with the §8 example fragments. -/
def c1Out : List Tok :=
  [Tok.startTag "html" [], Tok.startTag "head" [],
   Tok.raw "<style>h</style>", Tok.endTag "head",
   Tok.raw "<body>", Tok.raw "<header>hdr</header>",
   Tok.startTag "div"
     [("id", "rustdoc_body_wrapper"), ("class", "foo container-rustdoc"),
      ("tabindex", "-1")],
   Tok.raw "<nav>top</nav>", Tok.text "X",
   Tok.endTag "div", Tok.raw "</body>", Tok.endTag "html"]

set_option maxRecDepth 20000 in
/-- C1: on the input document
`<html><head></head><body class="foo">X</body></html>` with head fragment
`<style>h</style>`, vendored fragment `<link rel=vendor>`, body-prefix
fragment `<nav>top</nav>` and header fragment `<header>hdr</header>`,
`rewrite_lol` succeeds and its output bytes are exactly
`<html><head><style>h</style></head><body><header>hdr</header><div
id="rustdoc_body_wrapper" class="foo container-rustdoc"
tabindex="-1"><nav>top</nav>X</div></body></html>`. -/
theorem c1_example_output :
    rewrite_lol exHtml 4096 exCtx exTd = Outcome.ok c1Out ∧
    serialize c1Out =
      "<html><head><style>h</style></head><body><header>hdr</header><div id=\"rustdoc_body_wrapper\" class=\"foo container-rustdoc\" tabindex=\"-1\"><nav>top</nav>X</div></body></html>" :=
  ⟨by decide, by decide⟩

/-- Template store whose every render fails. -/
def failTd : TemplateData := ⟨fun _ _ => none⟩

/-- C2 (counterexample): with a template store whose head render fails,
`rewrite_lol` panics — it does not surface the failure as a typed failure
result, contrary to the claim. -/
theorem c2_counterexample :
    rewrite_lol exHtml 4096 exCtx failTd = Outcome.panicked ∧
    isTypedFailure (rewrite_lol exHtml 4096 exCtx failTd) = false :=
  ⟨rfl, rfl⟩

/-- C2 (amended): if rendering any of the four named templates fails,
`rewrite_lol` aborts by panicking before any rewriting starts and produces
no partial output; the failure is not returned as a typed error value. -/
theorem c2_template_failure_panics (html : List Tok) (lim : Nat) (ctx : Context)
    (td : TemplateData)
    (h : td.render "rustdoc/head.html" ctx = none ∨
      td.render "rustdoc/vendored.html" ctx = none ∨
      td.render "rustdoc/body.html" ctx = none ∨
      td.render "rustdoc/header.html" ctx = none) :
    rewrite_lol html lim ctx td = Outcome.panicked := by
  cases hh : td.render "rustdoc/head.html" ctx with
  | none => simp [rewrite_lol, hh]
  | some vh =>
    cases hv : td.render "rustdoc/vendored.html" ctx with
    | none => simp [rewrite_lol, hh, hv]
    | some vv =>
      cases hb : td.render "rustdoc/body.html" ctx with
      | none => simp [rewrite_lol, hh, hv, hb]
      | some vb =>
        cases hr : td.render "rustdoc/header.html" ctx with
        | none => simp [rewrite_lol, hh, hv, hb, hr]
        | some vr => simp [hh, hv, hb, hr] at h

/-- Witness for the amended C2 at a concrete input. -/
theorem c2_witness : rewrite_lol exHtml 4096 exCtx failTd = Outcome.panicked :=
  c2_template_failure_panics exHtml 4096 exCtx failTd (Or.inl rfl)

/-- Index of the first occurrence of a token in a stream (length of the
stream when absent). -/
def idxOfTok (t : Tok) : List Tok → Nat
  | [] => 0
  | x :: rest => if x = t then 0 else idxOfTok t rest + 1

/-- C3 (counterexample): in the output of the §8 example the header
fragment does NOT appear strictly before the synthesized `<body>` tag —
the `<body>` tag comes first, refuting the claimed order. -/
theorem c3_counterexample :
    rewrite_lol exHtml 4096 exCtx exTd = Outcome.ok c1Out ∧
    ¬ idxOfTok (Tok.raw "<header>hdr</header>") c1Out <
        idxOfTok (Tok.raw "<body>") c1Out :=
  ⟨by decide, by decide⟩

/-- C3 (amended): when the body handler fires, the synthesized literal
`<body>` open tag is emitted first, the header fragment immediately after
it, and both strictly before the renamed `div` element, which is followed
by the body-prefix fragment. -/
theorem c3_header_inside_new_body (fr : Fragments) (s : RwState)
    (a : List (String × String)) (rest : List Tok) :
    goPure fr s (Tok.startTag "body" a :: rest) =
      Tok.raw "<body>" :: Tok.raw fr.tera_rustdoc_header ::
        Tok.startTag "div" (rewriteBodyAttrs a) :: Tok.raw fr.tera_body ::
        goPure fr { s with bodyPending := true } rest := rfl

/-- C4: the rewritten body element's `class` attribute is exactly
`container-rustdoc` when the original body had no class attribute, and
exactly `foo container-rustdoc` when the original class was `foo`. -/
theorem c4_body_class_merge (a : List (String × String)) :
    (getAttr a "class" = none →
      getAttr (rewriteBodyAttrs a) "class" = some "container-rustdoc") ∧
    (getAttr a "class" = some "foo" →
      getAttr (rewriteBodyAttrs a) "class" = some "foo container-rustdoc") := by
  constructor <;> intro h <;>
    · show some (bodyClass a) = _
      simp [bodyClass, h]

/-- Witness for C4 at the two concrete attribute lists of the claim. -/
theorem c4_witness :
    getAttr (rewriteBodyAttrs []) "class" = some "container-rustdoc" ∧
    getAttr (rewriteBodyAttrs [("class", "foo")]) "class" =
      some "foo container-rustdoc" :=
  ⟨(c4_body_class_merge []).1 rfl, (c4_body_class_merge [("class", "foo")]).2 rfl⟩

/-- The §8 example fragments as a `Fragments` record. -/
def exFr : Fragments :=
  ⟨"<style>h</style>", "<link rel=vendor>", "<nav>top</nav>", "<header>hdr</header>"⟩

/-- A successful memory-limited pass implies every input token fit inside
the ceiling. -/
theorem goMem_ok_mem_le (fr : Fragments) (lim : Nat) :
    ∀ (s : RwState) (toks out : List Tok),
      goMem fr lim s toks = Except.ok out → ∀ t ∈ toks, tokMemory t ≤ lim := by
  intro s toks
  induction toks generalizing s with
  | nil => intro out _ t ht; simp at ht
  | cons x ts ih =>
    intro out hok t ht
    simp only [goMem] at hok
    split at hok
    · exact absurd hok (by simp)
    · rename_i hx
      rcases List.mem_cons.mp ht with rfl | htt
      · omega
      · cases hrec : goMem fr lim (stepTok fr s x).1 ts with
        | ok out' => exact ih _ _ hrec t htt
        | error e => rw [hrec] at hok; exact absurd hok (by simp)

/-- The only error the memory-limited pass can produce is
`memoryLimitExceeded`. -/
theorem goMem_error_eq (fr : Fragments) (lim : Nat) :
    ∀ (s : RwState) (toks : List Tok) (e : RewritingError),
      goMem fr lim s toks = Except.error e →
        e = RewritingError.memoryLimitExceeded := by
  intro s toks
  induction toks generalizing s with
  | nil => intro e h; exact absurd h (by simp [goMem])
  | cons x ts ih =>
    intro e h
    simp only [goMem] at h
    split at h
    · cases h; rfl
    · cases hrec : goMem fr lim (stepTok fr s x).1 ts with
      | ok out' => rw [hrec] at h; exact absurd h (by simp)
      | error e' => rw [hrec] at h; cases h; exact ih _ _ hrec

/-- When every input token fits inside the ceiling, the memory-limited pass
succeeds and produces exactly the unrestricted streaming output. -/
theorem goMem_ok_of_le (fr : Fragments) (lim : Nat) :
    ∀ (s : RwState) (toks : List Tok), (∀ t ∈ toks, tokMemory t ≤ lim) →
      goMem fr lim s toks = Except.ok (goPure fr s toks) := by
  intro s toks
  induction toks generalizing s with
  | nil => intro _; rfl
  | cons x ts ih =>
    intro hle
    have hx : ¬ lim < tokMemory x := by
      have := hle x (List.mem_cons_self x ts)
      omega
    have hrec := ih (stepTok fr s x).1 (fun t ht => hle t (List.mem_cons_of_mem x ht))
    simp only [goMem, hx, if_false, hrec, goPure]

/-- C6: whenever some token of the input requires more buffered memory than
the ceiling, `rewrite_lol` fails with the distinguished
`memoryLimitExceeded` error and returns no usable output. -/
theorem c6_memory_limit (toks : List Tok) (lim : Nat) (ctx : Context)
    (td : TemplateData) (H V P D : String)
    (hh : td.render "rustdoc/head.html" ctx = some H)
    (hv : td.render "rustdoc/vendored.html" ctx = some V)
    (hb : td.render "rustdoc/body.html" ctx = some P)
    (hd : td.render "rustdoc/header.html" ctx = some D)
    (hover : ∃ t ∈ toks, lim < tokMemory t) :
    rewrite_lol toks lim ctx td = Outcome.err RewritingError.memoryLimitExceeded := by
  simp only [rewrite_lol, hh, hv, hb, hd]
  cases hrun : goMem ⟨H, V, P, D⟩ lim ⟨false, false⟩ toks with
  | ok out =>
    obtain ⟨t, ht, hlt⟩ := hover
    have := goMem_ok_mem_le _ _ _ _ _ hrun t ht
    omega
  | error e =>
    rw [goMem_error_eq _ _ _ _ _ hrun]

/-- Witness for C6: a body tag needing 6 bytes of buffer against a ceiling
of 3 makes the whole call fail with `memoryLimitExceeded`. -/
theorem c6_witness :
    rewrite_lol [Tok.startTag "body" []] 3 exCtx exTd =
      Outcome.err RewritingError.memoryLimitExceeded :=
  c6_memory_limit [Tok.startTag "body" []] 3 exCtx exTd
    "<style>h</style>" "<link rel=vendor>" "<nav>top</nav>" "<header>hdr</header>"
    rfl rfl rfl rfl ⟨Tok.startTag "body" [], by decide, by decide⟩

/-- Whether a token fires none of the three registered handlers: it is not
a `head` or `body` start tag and does not match the stylesheet selector. -/
def noHandlerTok : Tok → Bool
  | Tok.startTag n a =>
    !(decide (n = "head") || decide (n = "body") || matchesFirstStylesheetSelector n a)
  | _ => true

/-- A token that fires no handler is forwarded unchanged and leaves the
initial (nothing-pending) engine state unchanged. -/
theorem stepTok_noHandler (fr : Fragments) (t : Tok) (h : noHandlerTok t = true) :
    stepTok fr ⟨false, false⟩ t = (⟨false, false⟩, [t]) := by
  cases t with
  | startTag n a =>
    simp only [noHandlerTok, Bool.not_eq_true', Bool.or_eq_false_iff,
      decide_eq_false_iff_not] at h
    obtain ⟨⟨hn1, hn2⟩, hn3⟩ := h
    simp [stepTok, hn1, hn2, hn3]
  | endTag n =>
    by_cases h1 : n = "head"
    · simp [stepTok, h1]
    · by_cases h2 : n = "body"
      · simp [stepTok, h1, h2]
      · simp [stepTok, h1, h2]
  | text t => rfl
  | raw r => rfl

/-- A stream in which no token fires a handler passes through the engine
unchanged. -/
theorem goPure_noHandler (fr : Fragments) :
    ∀ toks : List Tok, (∀ t ∈ toks, noHandlerTok t = true) →
      goPure fr ⟨false, false⟩ toks = toks := by
  intro toks
  induction toks with
  | nil => intro _; rfl
  | cons x ts ih =>
    intro hall
    have hx := stepTok_noHandler fr x (hall x (List.mem_cons_self x ts))
    have hts := ih (fun t ht => hall t (List.mem_cons_of_mem x ht))
    simp only [goPure, hx, hts, List.singleton_append]

/-- C9: on an input with no head element, no body element and no link
matching the stylesheet selector (more precisely: no token fires any
handler), and whose tokens all fit the memory ceiling, `rewrite_lol`
succeeds and the output equals the input. -/
theorem c9_no_match_identity (toks : List Tok) (lim : Nat) (ctx : Context)
    (td : TemplateData) (H V P D : String)
    (hh : td.render "rustdoc/head.html" ctx = some H)
    (hv : td.render "rustdoc/vendored.html" ctx = some V)
    (hb : td.render "rustdoc/body.html" ctx = some P)
    (hd : td.render "rustdoc/header.html" ctx = some D)
    (hmem : ∀ t ∈ toks, tokMemory t ≤ lim)
    (hplain : ∀ t ∈ toks, noHandlerTok t = true) :
    rewrite_lol toks lim ctx td = Outcome.ok toks := by
  simp only [rewrite_lol, hh, hv, hb, hd]
  rw [goMem_ok_of_le _ _ _ _ hmem, goPure_noHandler _ _ hplain]

/-- Witness for C9: a document with only a paragraph and a non-matching
link is returned unchanged. -/
theorem c9_witness :
    rewrite_lol
      [Tok.startTag "p" [], Tok.text "hi", Tok.endTag "p",
       Tok.startTag "link" [("rel", "stylesheet"), ("href", "other.css")]]
      100 exCtx exTd =
    Outcome.ok
      [Tok.startTag "p" [], Tok.text "hi", Tok.endTag "p",
       Tok.startTag "link" [("rel", "stylesheet"), ("href", "other.css")]] :=
  c9_no_match_identity _ 100 exCtx exTd
    "<style>h</style>" "<link rel=vendor>" "<nav>top</nav>" "<header>hdr</header>"
    rfl rfl rfl rfl (by decide) (by decide)

/-- Characterisation of the stylesheet selector on a `link` tag: it fires
exactly when the `type` attribute is `text/css` and the `href` attribute
contains `rustdoc`. -/
theorem matches_link_iff (a : List (String × String)) :
    matchesFirstStylesheetSelector "link" a = true ↔
      getAttr a "type" = some "text/css" ∧
        ∃ h, getAttr a "href" = some h ∧ containsSubstr h "rustdoc" = true := by
  cases ht : getAttr a "type" with
  | none => simp [matchesFirstStylesheetSelector, ht]
  | some t =>
    cases hh : getAttr a "href" with
    | none => simp [matchesFirstStylesheetSelector, ht, hh]
    | some h => simp [matchesFirstStylesheetSelector, ht, hh, and_comm]

/-- How the engine treats a `link` start tag: the vendored fragment is
inserted exactly when the selector condition holds. -/
theorem stepTok_link (fr : Fragments) (s : RwState) (a : List (String × String)) :
    stepTok fr s (Tok.startTag "link" a) =
      if matchesFirstStylesheetSelector "link" a then
        (s, [Tok.raw fr.tera_vendored_css, Tok.startTag "link" a])
      else (s, [Tok.startTag "link" a]) := rfl

/-- C10: the vendored insertion on a `link` element fires exactly when its
`type` attribute is `text/css` and its `href` attribute contains the
substring `rustdoc`; a non-matching link is forwarded unchanged; and the
`rel` attribute is never consulted by the selector. -/
theorem c10_selector_semantics (fr : Fragments) (s : RwState)
    (a : List (String × String)) :
    (stepTok fr s (Tok.startTag "link" a) =
        (s, [Tok.raw fr.tera_vendored_css, Tok.startTag "link" a]) ↔
      getAttr a "type" = some "text/css" ∧
        ∃ h, getAttr a "href" = some h ∧ containsSubstr h "rustdoc" = true) ∧
    (matchesFirstStylesheetSelector "link" a = false →
      stepTok fr s (Tok.startTag "link" a) = (s, [Tok.startTag "link" a])) ∧
    (∀ v, matchesFirstStylesheetSelector "link" (("rel", v) :: a) =
      matchesFirstStylesheetSelector "link" a) := by
  refine ⟨?_, ?_, fun v => rfl⟩
  · rw [stepTok_link]
    by_cases hm : matchesFirstStylesheetSelector "link" a = true
    · rw [if_pos hm]
      exact iff_of_true rfl ((matches_link_iff a).mp hm)
    · rw [if_neg hm]
      constructor
      · intro heq
        simp at heq
      · intro hcond
        exact absurd ((matches_link_iff a).mpr hcond) hm
  · intro hm
    rw [stepTok_link, if_neg (by simp [hm])]

/-- Witness for C10: a link with `rel="stylesheet"` but no `type='text/css'`
triggers no vendored insertion and is forwarded unchanged. -/
theorem c10_witness :
    stepTok exFr ⟨false, false⟩ (Tok.startTag "link" [("rel", "stylesheet")]) =
      (⟨false, false⟩, [Tok.startTag "link" [("rel", "stylesheet")]]) :=
  (c10_selector_semantics exFr ⟨false, false⟩ [("rel", "stylesheet")]).2.1 (by decide)

/-- Expansion the engine applies to a single token that sits between a head
start tag and its end tag: a matching link gets the vendored fragment
inserted before it, every other such token is forwarded unchanged. -/
def expandOne (fr : Fragments) : Tok → List Tok
  | Tok.startTag n a =>
    if matchesFirstStylesheetSelector n a then
      [Tok.raw fr.tera_vendored_css, Tok.startTag n a]
    else [Tok.startTag n a]
  | t => [t]

/-- Tokenwise expansion of a stream of head children. -/
def expandLinks (fr : Fragments) : List Tok → List Tok
  | [] => []
  | t :: ts => expandOne fr t ++ expandLinks fr ts

/-- Whether a token may appear between a head start tag and its end tag
without interacting with the head or body handlers (it is neither a
`head`/`body` start tag nor a `head`/`body` end tag). -/
def headChildTok : Tok → Bool
  | Tok.startTag n _ => !(decide (n = "head") || decide (n = "body"))
  | Tok.endTag n => !(decide (n = "head") || decide (n = "body"))
  | _ => true

/-- A head child token is expanded by `expandOne` and leaves the engine
state unchanged. -/
theorem stepTok_headChild (fr : Fragments) (s : RwState) (t : Tok)
    (h : headChildTok t = true) : stepTok fr s t = (s, expandOne fr t) := by
  cases t with
  | startTag n a =>
    simp only [headChildTok, Bool.not_eq_true', Bool.or_eq_false_iff,
      decide_eq_false_iff_not] at h
    obtain ⟨h1, h2⟩ := h
    simp only [stepTok, expandOne, if_neg h1, if_neg h2]
    split <;> rfl
  | endTag n =>
    simp only [headChildTok, Bool.not_eq_true', Bool.or_eq_false_iff,
      decide_eq_false_iff_not] at h
    obtain ⟨h1, h2⟩ := h
    simp [stepTok, expandOne, h1, h2]
  | text t => rfl
  | raw r => rfl

/-- The engine maps a block of head children followed by anything to their
tokenwise expansion followed by the rewrite of the remainder. -/
theorem goPure_append_headChild (fr : Fragments) :
    ∀ (kids : List Tok) (s : RwState) (rest : List Tok),
      (∀ t ∈ kids, headChildTok t = true) →
      goPure fr s (kids ++ rest) = expandLinks fr kids ++ goPure fr s rest := by
  intro kids
  induction kids with
  | nil => intro s rest _; rfl
  | cons t ts ih =>
    intro s rest hall
    have ht := stepTok_headChild fr s t (hall t (List.mem_cons_self t ts))
    simp only [List.cons_append, goPure, ht, expandLinks, List.append_eq]
    rw [ih s rest (fun x hx => hall x (List.mem_cons_of_mem t hx))]
    simp [List.append_assoc]

/-- Every head-children stream is a sublist (same order, nothing dropped)
of its expansion. -/
theorem sublist_expandLinks (fr : Fragments) :
    ∀ l : List Tok, List.Sublist l (expandLinks fr l) := by
  intro l
  induction l with
  | nil => simp [expandLinks]
  | cons t ts ih =>
    simp only [expandLinks]
    cases t with
    | startTag n a =>
      simp only [expandOne]
      split
      · exact List.Sublist.cons _ (List.Sublist.cons₂ _ ih)
      · exact List.Sublist.cons₂ _ ih
    | endTag n => exact List.Sublist.cons₂ _ ih
    | text t => exact List.Sublist.cons₂ _ ih
    | raw r => exact List.Sublist.cons₂ _ ih

/-- C8: on a document with a head element, the head start tag is forwarded
with its attributes untouched; the head fragment is emitted immediately
before the head end tag (as last child); and the original head children
are preserved in their original order (a sublist of the emitted children,
which only ever gain vendored-fragment insertions before matching
links). -/
theorem c8_head_append (fr : Fragments) (s : RwState) (a : List (String × String))
    (kids rest : List Tok) (hpend : s.headPending = true)
    (hkids : ∀ t ∈ kids, headChildTok t = true) :
    stepTok fr s (Tok.startTag "head" a) =
      ({ s with headPending := true }, [Tok.startTag "head" a]) ∧
    goPure fr s (kids ++ Tok.endTag "head" :: rest) =
      expandLinks fr kids ++ Tok.raw fr.tera_head :: Tok.endTag "head" ::
        goPure fr { s with headPending := false } rest ∧
    List.Sublist kids (expandLinks fr kids) := by
  refine ⟨rfl, ?_, sublist_expandLinks fr kids⟩
  rw [goPure_append_headChild fr kids s _ hkids]
  congr 1
  show goPure fr s (Tok.endTag "head" :: rest) = _
  simp only [goPure, stepTok, if_pos rfl, hpend, if_true]
  rfl

/-- Witness for C8: a head holding a meta tag and a matching rustdoc
stylesheet link gets the head fragment as last child, children kept in
order (the link gaining its vendored insertion). -/
theorem c8_witness :
    stepTok exFr ⟨true, false⟩ (Tok.startTag "head" []) =
      (⟨true, false⟩, [Tok.startTag "head" []]) ∧
    goPure exFr ⟨true, false⟩
      ([Tok.startTag "meta" [],
        Tok.startTag "link" [("type", "text/css"), ("href", "rustdoc-main.css")]] ++
        Tok.endTag "head" :: []) =
      [Tok.startTag "meta" [],
       Tok.raw "<link rel=vendor>",
       Tok.startTag "link" [("type", "text/css"), ("href", "rustdoc-main.css")],
       Tok.raw "<style>h</style>", Tok.endTag "head"] ∧
    List.Sublist
      [Tok.startTag "meta" [],
       Tok.startTag "link" [("type", "text/css"), ("href", "rustdoc-main.css")]]
      (expandLinks exFr
        [Tok.startTag "meta" [],
         Tok.startTag "link" [("type", "text/css"), ("href", "rustdoc-main.css")]]) :=
  c8_head_append exFr ⟨true, false⟩ []
    [Tok.startTag "meta" [],
     Tok.startTag "link" [("type", "text/css"), ("href", "rustdoc-main.css")]]
    [] rfl (by decide)

/-- Whether a token is a start tag matching the stylesheet selector. -/
def isMatchTok : Tok → Bool
  | Tok.startTag n a => matchesFirstStylesheetSelector n a
  | _ => false

/-- Whether a token is not a `raw` (injected) token; input documents
consist of non-raw tokens. -/
def noRawTok : Tok → Bool
  | Tok.raw _ => false
  | _ => true

/-- Number of `raw` tokens in a stream carrying exactly the string `V`
(occurrences of the vendored fragment when `V` is that fragment). -/
def countRawV (V : String) : List Tok → Nat
  | [] => 0
  | Tok.raw r :: rest => (if r = V then 1 else 0) + countRawV V rest
  | _ :: rest => countRawV V rest

/-- Number of tokens of a stream matching the stylesheet selector. -/
def countMatch : List Tok → Nat
  | [] => 0
  | t :: rest => (if isMatchTok t then 1 else 0) + countMatch rest

/-- Whether the first token of a stream (if any) is not a matching link. -/
def headNotMatch : List Tok → Bool
  | [] => true
  | t :: _ => !(isMatchTok t)

/-- Whether every matching link in a stream is immediately preceded by a
`raw` token carrying exactly `V`. -/
def vendoredPairs (V : String) : List Tok → Bool
  | a :: b :: rest => (!(isMatchTok b) || decide (a = Tok.raw V)) && vendoredPairs V (b :: rest)
  | _ => true

theorem countRawV_append (V : String) :
    ∀ xs ys, countRawV V (xs ++ ys) = countRawV V xs + countRawV V ys := by
  intro xs ys
  induction xs with
  | nil => simp [countRawV]
  | cons x xs ih => cases x <;> simp [countRawV, ih, Nat.add_assoc]

theorem vendoredPairs_append (V : String) :
    ∀ xs ys, vendoredPairs V xs = true → headNotMatch ys = true →
      vendoredPairs V ys = true → vendoredPairs V (xs ++ ys) = true := by
  intro xs
  induction xs with
  | nil => intro ys _ _ h3; simpa using h3
  | cons a xs ih =>
    intro ys h1 h2 h3
    cases xs with
    | nil =>
      cases ys with
      | nil => rfl
      | cons y ys' =>
        have hy : isMatchTok y = false := by simpa [headNotMatch] using h2
        simp only [List.cons_append, List.nil_append, vendoredPairs, hy,
          Bool.not_false, Bool.true_or, Bool.true_and]
        simpa using h3
    | cons b xs' =>
      simp only [vendoredPairs, Bool.and_eq_true] at h1
      obtain ⟨hab, h1'⟩ := h1
      simp only [List.cons_append, vendoredPairs, Bool.and_eq_true]
      refine ⟨hab, ?_⟩
      simpa using ih ys h1' h2 h3

/-- Gluing an emitted piece onto the already-handled remainder preserves
the three C7 invariants. -/
theorem c7_glue (V : String) (P R : List Tok) (m : Nat)
    (hc : countRawV V R = m)
    (hhR : headNotMatch R = true)
    (hpR : vendoredPairs V R = true)
    (hhP : headNotMatch P = true)
    (hpP : vendoredPairs V P = true)
    (hP : P ≠ []) :
    countRawV V (P ++ R) = countRawV V P + m ∧
    headNotMatch (P ++ R) = true ∧
    vendoredPairs V (P ++ R) = true := by
  refine ⟨by rw [countRawV_append, hc], ?_, vendoredPairs_append V P R hpP hhR hpR⟩
  cases P with
  | nil => exact absurd rfl hP
  | cons p P' => simpa [headNotMatch] using hhP

/-- Core of C7 over the streaming pass: on raw-free input the number of
emitted vendored-fragment tokens equals the number of matching links, the
output never begins with a matching link, and every matching link in the
output is immediately preceded by the vendored fragment. -/
theorem c7_core (fr : Fragments)
    (hV1 : fr.tera_head ≠ fr.tera_vendored_css)
    (hV2 : fr.tera_body ≠ fr.tera_vendored_css)
    (hV3 : fr.tera_rustdoc_header ≠ fr.tera_vendored_css)
    (hV4 : "<body>" ≠ fr.tera_vendored_css)
    (hV5 : "</body>" ≠ fr.tera_vendored_css) :
    ∀ (toks : List Tok) (s : RwState), (∀ t ∈ toks, noRawTok t = true) →
      countRawV fr.tera_vendored_css (goPure fr s toks) = countMatch toks ∧
        headNotMatch (goPure fr s toks) = true ∧
        vendoredPairs fr.tera_vendored_css (goPure fr s toks) = true := by
  intro toks
  induction toks with
  | nil => intro s _; exact ⟨rfl, rfl, rfl⟩
  | cons t ts ih =>
    intro s hnr
    obtain ⟨ihc, ihh, ihp⟩ :=
      ih (stepTok fr s t).1 (fun x hx => hnr x (List.mem_cons_of_mem t hx))
    cases t with
    | raw r =>
      exact absurd (hnr (Tok.raw r) (List.mem_cons_self _ _)) (by simp [noRawTok])
    | text txt =>
      have hstep : stepTok fr s (Tok.text txt) = (s, [Tok.text txt]) := rfl
      rw [hstep] at ihc ihh ihp
      simp only [goPure, hstep]
      obtain ⟨g1, g2, g3⟩ :=
        c7_glue fr.tera_vendored_css [Tok.text txt] _ _ ihc ihh ihp rfl rfl (by simp)
      refine ⟨?_, g2, g3⟩
      rw [g1]
      simp [countRawV, countMatch, isMatchTok]
    | endTag n =>
      by_cases hn1 : n = "head"
      · subst hn1
        by_cases hpend : s.headPending
        · have hstep : stepTok fr s (Tok.endTag "head") =
              ({ s with headPending := false },
                [Tok.raw fr.tera_head, Tok.endTag "head"]) := by
            simp [stepTok, hpend]
          rw [hstep] at ihc ihh ihp
          simp only [goPure, hstep]
          obtain ⟨g1, g2, g3⟩ :=
            c7_glue fr.tera_vendored_css [Tok.raw fr.tera_head, Tok.endTag "head"]
              _ _ ihc ihh ihp rfl rfl (by simp)
          refine ⟨?_, g2, g3⟩
          rw [g1]
          simp [countRawV, countMatch, isMatchTok, if_neg hV1]
        · have hstep : stepTok fr s (Tok.endTag "head") = (s, [Tok.endTag "head"]) := by
            simp [stepTok, hpend]
          rw [hstep] at ihc ihh ihp
          simp only [goPure, hstep]
          obtain ⟨g1, g2, g3⟩ :=
            c7_glue fr.tera_vendored_css [Tok.endTag "head"] _ _ ihc ihh ihp rfl rfl (by simp)
          refine ⟨?_, g2, g3⟩
          rw [g1]
          simp [countRawV, countMatch, isMatchTok]
      · by_cases hn2 : n = "body"
        · subst hn2
          by_cases hpend : s.bodyPending
          · have hstep : stepTok fr s (Tok.endTag "body") =
                ({ s with bodyPending := false },
                  [Tok.endTag "div", Tok.raw "</body>"]) := by
              simp [stepTok, hpend]
            rw [hstep] at ihc ihh ihp
            simp only [goPure, hstep]
            obtain ⟨g1, g2, g3⟩ :=
              c7_glue fr.tera_vendored_css [Tok.endTag "div", Tok.raw "</body>"]
                _ _ ihc ihh ihp rfl rfl (by simp)
            refine ⟨?_, g2, g3⟩
            rw [g1]
            simp [countRawV, countMatch, isMatchTok, if_neg hV5]
          · have hstep : stepTok fr s (Tok.endTag "body") = (s, [Tok.endTag "body"]) := by
              simp [stepTok, hpend]
            rw [hstep] at ihc ihh ihp
            simp only [goPure, hstep]
            obtain ⟨g1, g2, g3⟩ :=
              c7_glue fr.tera_vendored_css [Tok.endTag "body"] _ _ ihc ihh ihp rfl rfl (by simp)
            refine ⟨?_, g2, g3⟩
            rw [g1]
            simp [countRawV, countMatch, isMatchTok]
        · have hstep : stepTok fr s (Tok.endTag n) = (s, [Tok.endTag n]) := by
            simp [stepTok, hn1, hn2]
          rw [hstep] at ihc ihh ihp
          simp only [goPure, hstep]
          obtain ⟨g1, g2, g3⟩ :=
            c7_glue fr.tera_vendored_css [Tok.endTag n] _ _ ihc ihh ihp rfl rfl (by simp)
          refine ⟨?_, g2, g3⟩
          rw [g1]
          simp [countRawV, countMatch, isMatchTok]
    | startTag n a =>
      by_cases hn1 : n = "head"
      · subst hn1
        have hstep : stepTok fr s (Tok.startTag "head" a) =
            ({ s with headPending := true }, [Tok.startTag "head" a]) := rfl
        rw [hstep] at ihc ihh ihp
        simp only [goPure, hstep]
        obtain ⟨g1, g2, g3⟩ :=
          c7_glue fr.tera_vendored_css [Tok.startTag "head" a] _ _ ihc ihh ihp rfl rfl (by simp)
        refine ⟨?_, g2, g3⟩
        rw [g1]
        simp only [countRawV, countMatch]
        have hm : isMatchTok (Tok.startTag "head" a) = false := rfl
        rw [hm]
        simp
      · by_cases hn2 : n = "body"
        · subst hn2
          have hstep : stepTok fr s (Tok.startTag "body" a) =
              ({ s with bodyPending := true },
                [Tok.raw "<body>", Tok.raw fr.tera_rustdoc_header,
                 Tok.startTag "div" (rewriteBodyAttrs a), Tok.raw fr.tera_body]) := rfl
          rw [hstep] at ihc ihh ihp
          simp only [goPure, hstep]
          obtain ⟨g1, g2, g3⟩ :=
            c7_glue fr.tera_vendored_css
              [Tok.raw "<body>", Tok.raw fr.tera_rustdoc_header,
               Tok.startTag "div" (rewriteBodyAttrs a), Tok.raw fr.tera_body]
              _ _ ihc ihh ihp rfl rfl (by simp)
          refine ⟨?_, g2, g3⟩
          rw [g1]
          have hm : isMatchTok (Tok.startTag "body" a) = false := rfl
          simp only [countRawV, countMatch, hm, if_neg hV4, if_neg hV3, if_neg hV2]
          simp
        · by_cases hm : matchesFirstStylesheetSelector n a = true
          · have hstep : stepTok fr s (Tok.startTag n a) =
                (s, [Tok.raw fr.tera_vendored_css, Tok.startTag n a]) := by
              simp [stepTok, hn1, hn2, hm]
            rw [hstep] at ihc ihh ihp
            simp only [goPure, hstep]
            obtain ⟨g1, g2, g3⟩ :=
              c7_glue fr.tera_vendored_css
                [Tok.raw fr.tera_vendored_css, Tok.startTag n a] _ _ ihc ihh ihp rfl
                (by simp [vendoredPairs, isMatchTok, hm]) (by simp)
            refine ⟨?_, g2, g3⟩
            rw [g1]
            simp [countRawV, countMatch, isMatchTok, hm]
          · have hstep : stepTok fr s (Tok.startTag n a) = (s, [Tok.startTag n a]) := by
              simp [stepTok, hn1, hn2, hm]
            rw [hstep] at ihc ihh ihp
            simp only [goPure, hstep]
            obtain ⟨g1, g2, g3⟩ :=
              c7_glue fr.tera_vendored_css [Tok.startTag n a] _ _ ihc ihh ihp
                (by simp [headNotMatch, isMatchTok, hm]) rfl (by simp)
            refine ⟨?_, g2, g3⟩
            rw [g1]
            simp [countRawV, countMatch, isMatchTok, hm]

/-- A successful memory-limited pass computes exactly the unrestricted
streaming output. -/
theorem goMem_ok_eq_goPure (fr : Fragments) (lim : Nat) :
    ∀ (s : RwState) (toks out : List Tok),
      goMem fr lim s toks = Except.ok out → out = goPure fr s toks := by
  intro s toks
  induction toks generalizing s with
  | nil =>
    intro out h
    simp only [goMem] at h
    cases h
    rfl
  | cons x ts ih =>
    intro out h
    simp only [goMem] at h
    split at h
    · exact absurd h (by simp)
    · cases hrec : goMem fr lim (stepTok fr s x).1 ts with
      | error e => rw [hrec] at h; exact absurd h (by simp)
      | ok out' =>
        rw [hrec] at h
        cases h
        rw [goPure, ih _ _ hrec]

/-- A successful call to `rewrite_lol` returns exactly the streaming
output on the rendered fragments. -/
theorem rewrite_lol_ok_eq (toks : List Tok) (lim : Nat) (ctx : Context)
    (td : TemplateData) (H V P D : String) (out : List Tok)
    (hh : td.render "rustdoc/head.html" ctx = some H)
    (hv : td.render "rustdoc/vendored.html" ctx = some V)
    (hb : td.render "rustdoc/body.html" ctx = some P)
    (hd : td.render "rustdoc/header.html" ctx = some D)
    (hok : rewrite_lol toks lim ctx td = Outcome.ok out) :
    out = goPure ⟨H, V, P, D⟩ ⟨false, false⟩ toks := by
  simp only [rewrite_lol, hh, hv, hb, hd] at hok
  cases hrun : goMem ⟨H, V, P, D⟩ lim ⟨false, false⟩ toks with
  | ok out' =>
    rw [hrun] at hok
    cases hok
    exact goMem_ok_eq_goPure _ _ _ _ _ hrun
  | error e => rw [hrun] at hok; exact absurd hok (by simp)

/-- C7: on raw-free input, whenever `rewrite_lol` succeeds (with the
vendored fragment distinct from the other injected strings), the output
contains exactly one vendored-fragment insertion per matching link, and
every matching link in the output is immediately preceded — hence strictly
preceded in byte order — by the vendored fragment. -/
theorem c7_vendored_each_match (toks : List Tok) (lim : Nat) (ctx : Context)
    (td : TemplateData) (H V P D : String) (out : List Tok)
    (hh : td.render "rustdoc/head.html" ctx = some H)
    (hv : td.render "rustdoc/vendored.html" ctx = some V)
    (hb : td.render "rustdoc/body.html" ctx = some P)
    (hd : td.render "rustdoc/header.html" ctx = some D)
    (hnr : ∀ t ∈ toks, noRawTok t = true)
    (d1 : H ≠ V) (d2 : P ≠ V) (d3 : D ≠ V)
    (d4 : "<body>" ≠ V) (d5 : "</body>" ≠ V)
    (hok : rewrite_lol toks lim ctx td = Outcome.ok out) :
    countRawV V out = countMatch toks ∧
    headNotMatch out = true ∧
    vendoredPairs V out = true := by
  rw [rewrite_lol_ok_eq toks lim ctx td H V P D out hh hv hb hd hok]
  exact c7_core ⟨H, V, P, D⟩ d1 d2 d3 d4 d5 toks ⟨false, false⟩ hnr

/-- Witness for C7: a document with one matching link gets exactly one
vendored insertion, placed immediately before the link. -/
theorem c7_witness :
    countRawV "<link rel=vendor>"
        [Tok.raw "<link rel=vendor>",
         Tok.startTag "link" [("type", "text/css"), ("href", "rustdoc.css")],
         Tok.text "x"] =
      countMatch
        [Tok.startTag "link" [("type", "text/css"), ("href", "rustdoc.css")],
         Tok.text "x"] ∧
    headNotMatch
        [Tok.raw "<link rel=vendor>",
         Tok.startTag "link" [("type", "text/css"), ("href", "rustdoc.css")],
         Tok.text "x"] = true ∧
    vendoredPairs "<link rel=vendor>"
        [Tok.raw "<link rel=vendor>",
         Tok.startTag "link" [("type", "text/css"), ("href", "rustdoc.css")],
         Tok.text "x"] = true :=
  c7_vendored_each_match
    [Tok.startTag "link" [("type", "text/css"), ("href", "rustdoc.css")], Tok.text "x"]
    200 exCtx exTd "<style>h</style>" "<link rel=vendor>" "<nav>top</nav>"
    "<header>hdr</header>"
    [Tok.raw "<link rel=vendor>",
     Tok.startTag "link" [("type", "text/css"), ("href", "rustdoc.css")],
     Tok.text "x"]
    rfl rfl rfl rfl (by decide) (by decide) (by decide) (by decide) (by decide)
    (by decide) (by decide)

/-- Taking exactly the length of the left part of an appended list returns
that left part. -/
theorem take_len_append (l1 l2 : List Char) : (l1 ++ l2).take l1.length = l1 := by
  induction l1 with
  | nil => simp
  | cons c cs ih => simp [ih]

/-- Reversion of the merged class value: drops the appended
`" container-rustdoc"` suffix. -/
def stripContainerSuffix (k : String) : String :=
  String.mk (k.data.take (k.data.length - (" container-rustdoc".data).length))

theorem stripContainerSuffix_append (c : String) :
    stripContainerSuffix (c ++ " container-rustdoc") = c := by
  obtain ⟨l⟩ := c
  have h1 : ((⟨l⟩ : String) ++ " container-rustdoc").data =
      l ++ " container-rustdoc".data := rfl
  have h2 : (" container-rustdoc".data).length = 18 := rfl
  simp only [stripContainerSuffix, h1, List.length_append, h2, Nat.add_sub_cancel]
  rw [take_len_append]

/-- A merged class value is never the bare `container-rustdoc` constant
(it is 18 characters longer than 17). -/
theorem append_container_ne (c : String) :
    c ++ " container-rustdoc" ≠ "container-rustdoc" := by
  obtain ⟨l⟩ := c
  intro h
  have hd : l ++ " container-rustdoc".data = "container-rustdoc".data :=
    congrArg String.data h
  have h18 : (" container-rustdoc".data).length = 18 := rfl
  have h17 : ("container-rustdoc".data).length = 17 := rfl
  have hlen := congrArg List.length hd
  rw [List.length_append, h18, h17] at hlen
  omega

/-- Reversion of the rewritten body attribute list back to the original
attributes (defined for body elements that carried at most a `class`
attribute): the merged class is un-merged, the injected `id` and
`tabindex` disappear. -/
def unrewriteBodyAttrs (a : List (String × String)) : List (String × String) :=
  match getAttr a "class" with
  | some k =>
    if k = "container-rustdoc" then [] else [("class", stripContainerSuffix k)]
  | none => []

/-- Whether a body start tag carries at most a single `class` attribute
(the shape on which the attribute rewrite is invertible). -/
def bodyAttrsOk : List (String × String) → Bool
  | [] => true
  | [(k, _)] => decide (k = "class")
  | _ => false

theorem unrewriteBodyAttrs_rewrite (a : List (String × String))
    (h : bodyAttrsOk a = true) :
    unrewriteBodyAttrs (rewriteBodyAttrs a) = a := by
  match a, h with
  | [], _ => rfl
  | [(k, v)], h =>
    have hk : k = "class" := by simpa [bodyAttrsOk] using h
    subst hk
    have hg : getAttr (rewriteBodyAttrs [("class", v)]) "class" =
        some (v ++ " container-rustdoc") := rfl
    simp only [unrewriteBodyAttrs, hg]
    rw [if_neg (append_container_ne v), stripContainerSuffix_append]

/-- The deletion/reversion procedure of the round-trip property: drop every
injected `raw` token, revert the sentinel-id `div` start tag to a `body`
start tag with its original attributes, and turn a renamed `div` end tag
immediately followed by the injected `</body>` raw back into the original
`body` end tag. -/
def unrewriteToks : List Tok → List Tok
  | [] => []
  | Tok.raw _ :: rest => unrewriteToks rest
  | Tok.text t :: rest => Tok.text t :: unrewriteToks rest
  | Tok.startTag n a :: rest =>
    if n = "div" ∧ getAttr a "id" = some "rustdoc_body_wrapper" then
      Tok.startTag "body" (unrewriteBodyAttrs a) :: unrewriteToks rest
    else Tok.startTag n a :: unrewriteToks rest
  | Tok.endTag n :: Tok.raw r :: rest' =>
    if n = "div" then
      if r = "</body>" then Tok.endTag "body" :: unrewriteToks rest'
      else Tok.endTag n :: unrewriteToks rest'
    else Tok.endTag n :: unrewriteToks rest'
  | Tok.endTag n :: rest => Tok.endTag n :: unrewriteToks rest

theorem u_start (n : String) (a : List (String × String)) (l : List Tok)
    (h : ¬(n = "div" ∧ getAttr a "id" = some "rustdoc_body_wrapper")) :
    unrewriteToks (Tok.startTag n a :: l) = Tok.startTag n a :: unrewriteToks l := by
  simp only [unrewriteToks, if_neg h]

theorem u_start_div (a : List (String × String)) (l : List Tok)
    (h : getAttr a "id" = some "rustdoc_body_wrapper") :
    unrewriteToks (Tok.startTag "div" a :: l) =
      Tok.startTag "body" (unrewriteBodyAttrs a) :: unrewriteToks l := by
  simp only [unrewriteToks]
  simp [h]

theorem u_end (n : String) (l : List Tok) (h : ¬ n = "div") :
    unrewriteToks (Tok.endTag n :: l) = Tok.endTag n :: unrewriteToks l := by
  cases l with
  | nil => rfl
  | cons x l' =>
    cases x with
    | raw r => simp only [unrewriteToks, if_neg h]
    | startTag m a => rfl
    | endTag m => rfl
    | text t => rfl

/-- Whether a stream does not begin with the injected `</body>` raw token
(so a preceding original `div` end tag is left alone). -/
def headNotCloseBody : List Tok → Prop
  | Tok.raw r :: _ => r ≠ "</body>"
  | _ => True

theorem u_end_div_pair (l : List Tok) :
    unrewriteToks (Tok.endTag "div" :: Tok.raw "</body>" :: l) =
      Tok.endTag "body" :: unrewriteToks l := rfl

theorem u_end_div_nopair (l : List Tok) (h : headNotCloseBody l) :
    unrewriteToks (Tok.endTag "div" :: l) = Tok.endTag "div" :: unrewriteToks l := by
  cases l with
  | nil => rfl
  | cons x l' =>
    cases x with
    | raw r =>
      have hr : r ≠ "</body>" := h
      have hraw : unrewriteToks (Tok.raw r :: l') = unrewriteToks l' := rfl
      simp only [unrewriteToks, if_pos rfl, if_neg hr, hraw]
      simp
    | startTag n a => rfl
    | endTag n => rfl
    | text t => rfl

theorem u_raw (r : String) (l : List Tok) :
    unrewriteToks (Tok.raw r :: l) = unrewriteToks l := rfl

theorem u_text (txt : String) (l : List Tok) :
    unrewriteToks (Tok.text txt :: l) = Tok.text txt :: unrewriteToks l := rfl

/-- Whether an input token is plain: not an injected `raw` token, not a
`div` start tag already carrying the sentinel wrapper id, and any `body`
start tag carries at most a single `class` attribute.  These are the
structural assumptions of spec §3 under which the rewrite is
reversible. -/
def plainTok : Tok → Bool
  | Tok.raw _ => false
  | Tok.startTag n a =>
    if n = "body" then bodyAttrsOk a
    else !(decide (n = "div") && decide (getAttr a "id" = some "rustdoc_body_wrapper"))
  | _ => true

theorem plain_noRaw (t : Tok) (h : plainTok t = true) : noRawTok t = true := by
  cases t with
  | raw r => exact absurd h (by simp [plainTok])
  | startTag n a => rfl
  | endTag n => rfl
  | text s => rfl

theorem plain_start_not_sentinel (n : String) (a : List (String × String))
    (h : plainTok (Tok.startTag n a) = true) (hn : ¬ n = "body") :
    ¬(n = "div" ∧ getAttr a "id" = some "rustdoc_body_wrapper") := by
  intro hc
  obtain ⟨h1, h2⟩ := hc
  simp only [plainTok, if_neg hn] at h
  simp [h1, h2] at h

/-- The streaming output never begins with the injected `</body>` raw
token (given raw-free input and fragments distinct from it). -/
theorem goPure_headNotCloseBody (fr : Fragments)
    (hH : fr.tera_head ≠ "</body>") (hV : fr.tera_vendored_css ≠ "</body>") :
    ∀ (toks : List Tok) (s : RwState), (∀ t ∈ toks, noRawTok t = true) →
      headNotCloseBody (goPure fr s toks) := by
  intro toks s hnr
  cases toks with
  | nil => exact trivial
  | cons t ts =>
    cases t with
    | raw r => exact absurd (hnr _ (List.mem_cons_self _ _)) (by simp [noRawTok])
    | text txt => exact trivial
    | startTag n a =>
      by_cases hn1 : n = "head"
      · subst hn1; exact trivial
      · by_cases hn2 : n = "body"
        · subst hn2
          show ("<body>" : String) ≠ "</body>"
          decide
        · by_cases hm : matchesFirstStylesheetSelector n a = true
          · have hstep : stepTok fr s (Tok.startTag n a) =
                (s, [Tok.raw fr.tera_vendored_css, Tok.startTag n a]) := by
              simp [stepTok, hn1, hn2, hm]
            simp only [goPure, hstep, List.cons_append]
            exact hV
          · have hstep : stepTok fr s (Tok.startTag n a) = (s, [Tok.startTag n a]) := by
              simp [stepTok, hn1, hn2, hm]
            simp only [goPure, hstep, List.cons_append]
            exact trivial
    | endTag n =>
      by_cases hn1 : n = "head"
      · subst hn1
        by_cases hp : s.headPending
        · have hstep : stepTok fr s (Tok.endTag "head") =
              ({ s with headPending := false },
                [Tok.raw fr.tera_head, Tok.endTag "head"]) := by
            simp [stepTok, hp]
          simp only [goPure, hstep, List.cons_append]
          exact hH
        · have hstep : stepTok fr s (Tok.endTag "head") = (s, [Tok.endTag "head"]) := by
            simp [stepTok, hp]
          simp only [goPure, hstep, List.cons_append]
          exact trivial
      · by_cases hn2 : n = "body"
        · subst hn2
          by_cases hp : s.bodyPending
          · have hstep : stepTok fr s (Tok.endTag "body") =
                ({ s with bodyPending := false },
                  [Tok.endTag "div", Tok.raw "</body>"]) := by
              simp [stepTok, hp]
            simp only [goPure, hstep, List.cons_append]
            exact trivial
          · have hstep : stepTok fr s (Tok.endTag "body") = (s, [Tok.endTag "body"]) := by
              simp [stepTok, hp]
            simp only [goPure, hstep, List.cons_append]
            exact trivial
        · have hstep : stepTok fr s (Tok.endTag n) = (s, [Tok.endTag n]) := by
            simp [stepTok, hn1, hn2]
          simp only [goPure, hstep, List.cons_append]
          exact trivial

/-- Core of the round-trip: on plain input (spec §3 structural
assumptions), undoing the rewrite reconstructs the input exactly. -/
theorem c5_core (fr : Fragments)
    (hH : fr.tera_head ≠ "</body>") (hV : fr.tera_vendored_css ≠ "</body>") :
    ∀ (toks : List Tok) (s : RwState), (∀ t ∈ toks, plainTok t = true) →
      unrewriteToks (goPure fr s toks) = toks := by
  intro toks
  induction toks with
  | nil => intro s _; rfl
  | cons t ts ih =>
    intro s hpl
    have hplts : ∀ x ∈ ts, plainTok x = true :=
      fun x hx => hpl x (List.mem_cons_of_mem t hx)
    have hnrts : ∀ x ∈ ts, noRawTok x = true :=
      fun x hx => plain_noRaw x (hplts x hx)
    have ihs : ∀ s' : RwState, unrewriteToks (goPure fr s' ts) = ts :=
      fun s' => ih s' hplts
    have hncb : ∀ s' : RwState, headNotCloseBody (goPure fr s' ts) :=
      fun s' => goPure_headNotCloseBody fr hH hV ts s' hnrts
    cases t with
    | raw r => exact absurd (hpl _ (List.mem_cons_self _ _)) (by simp [plainTok])
    | text txt =>
      have hstep : stepTok fr s (Tok.text txt) = (s, [Tok.text txt]) := rfl
      simp only [goPure, hstep, List.cons_append, List.nil_append]
      rw [u_text, ihs s]
    | startTag n a =>
      by_cases hn1 : n = "head"
      · subst hn1
        have hstep : stepTok fr s (Tok.startTag "head" a) =
            ({ s with headPending := true }, [Tok.startTag "head" a]) := rfl
        simp only [goPure, hstep, List.cons_append, List.nil_append]
        rw [u_start "head" a _ (by simp), ihs _]
      · by_cases hn2 : n = "body"
        · subst hn2
          have hba : bodyAttrsOk a = true := by
            simpa [plainTok] using hpl _ (List.mem_cons_self _ _)
          have hstep : stepTok fr s (Tok.startTag "body" a) =
              ({ s with bodyPending := true },
                [Tok.raw "<body>", Tok.raw fr.tera_rustdoc_header,
                 Tok.startTag "div" (rewriteBodyAttrs a), Tok.raw fr.tera_body]) := rfl
          simp only [goPure, hstep, List.cons_append, List.nil_append]
          rw [u_raw, u_raw, u_start_div (rewriteBodyAttrs a) _ rfl, u_raw, ihs _,
            unrewriteBodyAttrs_rewrite a hba]
        · by_cases hm : matchesFirstStylesheetSelector n a = true
          · have hns : ¬(n = "div" ∧ getAttr a "id" = some "rustdoc_body_wrapper") :=
              plain_start_not_sentinel n a (hpl _ (List.mem_cons_self _ _)) hn2
            have hstep : stepTok fr s (Tok.startTag n a) =
                (s, [Tok.raw fr.tera_vendored_css, Tok.startTag n a]) := by
              simp [stepTok, hn1, hn2, hm]
            simp only [goPure, hstep, List.cons_append, List.nil_append]
            rw [u_raw, u_start n a _ hns, ihs s]
          · have hns : ¬(n = "div" ∧ getAttr a "id" = some "rustdoc_body_wrapper") :=
              plain_start_not_sentinel n a (hpl _ (List.mem_cons_self _ _)) hn2
            have hstep : stepTok fr s (Tok.startTag n a) = (s, [Tok.startTag n a]) := by
              simp [stepTok, hn1, hn2, hm]
            simp only [goPure, hstep, List.cons_append, List.nil_append]
            rw [u_start n a _ hns, ihs s]
    | endTag n =>
      by_cases hn1 : n = "head"
      · subst hn1
        by_cases hp : s.headPending
        · have hstep : stepTok fr s (Tok.endTag "head") =
              ({ s with headPending := false },
                [Tok.raw fr.tera_head, Tok.endTag "head"]) := by
            simp [stepTok, hp]
          simp only [goPure, hstep, List.cons_append, List.nil_append]
          rw [u_raw, u_end "head" _ (by decide), ihs _]
        · have hstep : stepTok fr s (Tok.endTag "head") = (s, [Tok.endTag "head"]) := by
            simp [stepTok, hp]
          simp only [goPure, hstep, List.cons_append, List.nil_append]
          rw [u_end "head" _ (by decide), ihs s]
      · by_cases hn2 : n = "body"
        · subst hn2
          by_cases hp : s.bodyPending
          · have hstep : stepTok fr s (Tok.endTag "body") =
                ({ s with bodyPending := false },
                  [Tok.endTag "div", Tok.raw "</body>"]) := by
              simp [stepTok, hp]
            simp only [goPure, hstep, List.cons_append, List.nil_append]
            rw [u_end_div_pair, ihs _]
          · have hstep : stepTok fr s (Tok.endTag "body") = (s, [Tok.endTag "body"]) := by
              simp [stepTok, hp]
            simp only [goPure, hstep, List.cons_append, List.nil_append]
            rw [u_end "body" _ (by decide), ihs s]
        · by_cases hn3 : n = "div"
          · subst hn3
            have hstep : stepTok fr s (Tok.endTag "div") = (s, [Tok.endTag "div"]) := rfl
            simp only [goPure, hstep, List.cons_append, List.nil_append]
            rw [u_end_div_nopair _ (hncb s), ihs s]
          · have hstep : stepTok fr s (Tok.endTag n) = (s, [Tok.endTag n]) := by
              simp [stepTok, hn1, hn2]
            simp only [goPure, hstep, List.cons_append, List.nil_append]
            rw [u_end n _ hn3, ihs s]

/-- C5 (counterexample): two different inputs — a body with `id="a"` versus
`id="b"` — produce identical successful outputs, so no deletion/reversion
procedure can reconstruct every input from the output; the overwritten
original `id` attribute is lost. -/
theorem c5_counterexample :
    rewrite_lol [Tok.startTag "body" [("id", "a")], Tok.endTag "body"] 100 exCtx exTd =
      rewrite_lol [Tok.startTag "body" [("id", "b")], Tok.endTag "body"] 100 exCtx exTd ∧
    serialize [Tok.startTag "body" [("id", "a")], Tok.endTag "body"] ≠
      serialize [Tok.startTag "body" [("id", "b")], Tok.endTag "body"] ∧
    rewrite_lol [Tok.startTag "body" [("id", "a")], Tok.endTag "body"] 100 exCtx exTd =
      Outcome.ok
        [Tok.raw "<body>", Tok.raw "<header>hdr</header>",
         Tok.startTag "div"
           [("id", "rustdoc_body_wrapper"), ("class", "container-rustdoc"),
            ("tabindex", "-1")],
         Tok.raw "<nav>top</nav>", Tok.endTag "div", Tok.raw "</body>"] :=
  ⟨by decide, by decide, by decide⟩

/-- C5 (amended): for plain inputs — no injected raw tokens, body elements
carrying at most a `class` attribute, no pre-existing sentinel-id div —
and fragments distinct from the literal `</body>`, whenever `rewrite_lol`
succeeds, deleting every inserted fragment and the synthesized body tags
and reverting the renamed div and its rewritten attributes reconstructs
the original input exactly, hence byte-for-byte. -/
theorem c5_roundtrip_plain (toks : List Tok) (lim : Nat) (ctx : Context)
    (td : TemplateData) (H V P D : String) (out : List Tok)
    (hh : td.render "rustdoc/head.html" ctx = some H)
    (hv : td.render "rustdoc/vendored.html" ctx = some V)
    (hb : td.render "rustdoc/body.html" ctx = some P)
    (hd : td.render "rustdoc/header.html" ctx = some D)
    (hplain : ∀ t ∈ toks, plainTok t = true)
    (hH : H ≠ "</body>") (hV : V ≠ "</body>")
    (hok : rewrite_lol toks lim ctx td = Outcome.ok out) :
    unrewriteToks out = toks ∧ serialize (unrewriteToks out) = serialize toks := by
  have h1 : unrewriteToks out = toks := by
    rw [rewrite_lol_ok_eq toks lim ctx td H V P D out hh hv hb hd hok]
    exact c5_core ⟨H, V, P, D⟩ hH hV toks ⟨false, false⟩ hplain
  exact ⟨h1, by rw [h1]⟩

/-- Witness for the amended C5: undoing the rewrite of the §8 example
output reconstructs the example input. -/
theorem c5_witness :
    unrewriteToks c1Out = exHtml ∧
    serialize (unrewriteToks c1Out) = serialize exHtml :=
  c5_roundtrip_plain exHtml 4096 exCtx exTd "<style>h</style>" "<link rel=vendor>"
    "<nav>top</nav>" "<header>hdr</header>" c1Out rfl rfl rfl rfl
    (by decide) (by decide) (by decide) (by decide)
